import Mathlib

/-!
Verification of the `haxe_atomic` module: a shallow embedding of the three
atomic cells (`AtomicBool`, `AtomicInt`, `AtomicObject`) from `src/lib.rs`,
with theorems checking the natural-language specification against the code.

Modelling conventions:
* `AtomicBool` / `AtomicInt` cells are pure values (`Bool`, `ℤ`); each method
  is a function from the cell value (and arguments) to the pair
  (returned value, new cell value).  Rust's `std` compare-exchange is embedded
  as a `Result`-shaped value (`Except`) so that the `match { Ok(v) => v,
  Err(v) => v }` in the source is reproduced literally.
* 32-bit integers are embedded as `ℤ` with explicit two's-complement wrapping
  (`% 2^32` recentred to `[-2^31, 2^31)`); bitwise operations go through the
  unsigned bit pattern (`ℕ` below `2^32`).
* The managed-reference slot (`AtomicObject`) is a state `AState`: the slot's
  pointer (an `Option ℕ`, `none` standing for the null pointer written by
  `__clear__`) together with the reference counts of all objects, as integers
  counting the net change effected through the pyo3 calls in the source
  (`Py::from_borrowed_ptr` increments, `Bound` drops decrement,
  `into_ptr` / `from_owned_ptr` transfer ownership without touching counts,
  `Py_DecRef` decrements and tolerates null).
-/

/-- Rust `std::sync::atomic` compare-exchange on a `bool` cell: on success the
result is `Ok(previous)` and the cell is updated; on failure it is
`Err(actual)` and the cell is unchanged. -/
def stdBoolCompareExchange (cell current new : Bool) : Except Bool Bool × Bool :=
  if cell = current then (Except.ok cell, new) else (Except.error cell, cell)

/-- Rust `std::sync::atomic` compare-exchange on an `i32` cell. -/
def stdIntCompareExchange (cell current new : ℤ) : Except ℤ ℤ × ℤ :=
  if cell = current then (Except.ok cell, new) else (Except.error cell, cell)

namespace AtomicBool

/-- `AtomicBool::load`. -/
def load (cell : Bool) : Bool := cell

/-- `AtomicBool::store`: stores `val` and returns `val`. -/
def store (cell val : Bool) : Bool × Bool := (val, val)

/-- `AtomicBool::exchange`: swaps in `val`, returns the previous value. -/
def exchange (cell val : Bool) : Bool × Bool := (cell, val)

/-- `AtomicBool::compare_exchange` from the source: runs the std
compare-exchange and returns the payload of either outcome
(`match { Ok(v) => v, Err(v) => v }`). -/
def compare_exchange (cell current new : Bool) : Bool × Bool :=
  match stdBoolCompareExchange cell current new with
  | (Except.ok v, c) => (v, c)
  | (Except.error v, c) => (v, c)

end AtomicBool

/-- Two's-complement wrap of an integer into `[-2^31, 2^31)`, the value an
`i32` holds after wrapping arithmetic. -/
def i32wrap (z : ℤ) : ℤ := (z + 2 ^ 31) % 2 ^ 32 - 2 ^ 31

/-- The unsigned 32-bit pattern of an integer (`ℕ` below `2^32`). -/
def toU32 (z : ℤ) : ℕ := (z % 2 ^ 32).toNat

/-- Reads a 32-bit pattern back as a signed (two's-complement) value. -/
def ofU32 (n : ℕ) : ℤ := if n < 2 ^ 31 then (n : ℤ) else (n : ℤ) - 2 ^ 32

namespace AtomicInt

/-- `AtomicInt::load`. -/
def load (cell : ℤ) : ℤ := cell

/-- `AtomicInt::store`: stores `val` and returns `val`. -/
def store (cell val : ℤ) : ℤ × ℤ := (val, val)

/-- `AtomicInt::exchange`: swaps in `val`, returns the previous value. -/
def exchange (cell val : ℤ) : ℤ × ℤ := (cell, val)

/-- `AtomicInt::compare_exchange` from the source: std compare-exchange,
returning the payload of either outcome. -/
def compare_exchange (cell current new : ℤ) : ℤ × ℤ :=
  match stdIntCompareExchange cell current new with
  | (Except.ok v, c) => (v, c)
  | (Except.error v, c) => (v, c)

/-- `AtomicInt::fetch_add`: wrapping add, returns the previous value. -/
def fetch_add (cell val : ℤ) : ℤ × ℤ := (cell, i32wrap (cell + val))

/-- `AtomicInt::fetch_sub`: wrapping subtract, returns the previous value. -/
def fetch_sub (cell val : ℤ) : ℤ × ℤ := (cell, i32wrap (cell - val))

/-- `AtomicInt::fetch_and`: bitwise and on the 32-bit patterns. -/
def fetch_and (cell val : ℤ) : ℤ × ℤ := (cell, ofU32 (toU32 cell &&& toU32 val))

/-- `AtomicInt::fetch_or`: bitwise or on the 32-bit patterns. -/
def fetch_or (cell val : ℤ) : ℤ × ℤ := (cell, ofU32 (toU32 cell ||| toU32 val))

/-- `AtomicInt::fetch_xor`: bitwise xor on the 32-bit patterns. -/
def fetch_xor (cell val : ℤ) : ℤ × ℤ := (cell, ofU32 (toU32 cell ^^^ toU32 val))

end AtomicInt

theorem i32wrap_range (z : ℤ) : -2 ^ 31 ≤ i32wrap z ∧ i32wrap z < 2 ^ 31 := by
  unfold i32wrap
  constructor <;> omega

theorem i32wrap_congr (z : ℤ) : (2 ^ 32 : ℤ) ∣ (z - i32wrap z) := by
  unfold i32wrap
  omega

theorem toU32_lt (z : ℤ) : toU32 z < 2 ^ 32 := by
  unfold toU32
  omega

/-- Claim C1 (counterexample): on a boolean cell holding `false`,
`compare_exchange(false, true)` does perform the store (the cell ends holding
`true`) yet returns `false`, not the desired value `true` the claim asserts. -/
theorem C1_counterexample :
    (AtomicBool.compare_exchange false false true).2 = true ∧
      ¬ (AtomicBool.compare_exchange false false true).1 = true := by
  decide

/-- Claim C1 (amended): for the boolean and integer atomic cells,
`compare_exchange(expected, desired)` atomically stores `desired` iff the
current value equals `expected`, and returns the value held immediately
before the operation — that is `expected` itself when the swap succeeds and
the actual current value when it fails — never the newly stored desired
value; in particular on a boolean cell holding `false`,
`compare_exchange(false, true)` stores `true` and returns `false`. -/
theorem C1_amended :
    (∀ cell current new : Bool,
        AtomicBool.compare_exchange cell current new =
          (cell, if cell = current then new else cell)) ∧
      (∀ cell current new : ℤ,
        AtomicInt.compare_exchange cell current new =
          (cell, if cell = current then new else cell)) ∧
      AtomicBool.compare_exchange false false true = (false, true) := by
  refine ⟨fun cell current new => ?_, fun cell current new => ?_, by decide⟩
  · unfold AtomicBool.compare_exchange stdBoolCompareExchange
    by_cases h : cell = current <;> simp [h]
  · unfold AtomicInt.compare_exchange stdIntCompareExchange
    by_cases h : cell = current <;> simp [h]

theorem toU32_ofU32 (n : ℕ) (h : n < 2 ^ 32) : toU32 (ofU32 n) = n := by
  unfold toU32 ofU32
  split <;> omega

/-- Claim C4: every integer fetch-combine operation returns the value held
immediately before the operation and stores the operator applied with
two's-complement wrapping — on the unsigned 32-bit patterns, `fetch_add` and
`fetch_sub` act modulo `2^32` and the bitwise operations act bitwise; in
particular `fetch_add 5` on a cell holding `10` returns `10` and leaves `15`,
and `fetch_xor 0b0110` on a cell holding `0b1010` returns `0b1010` and leaves
`0b1100`. -/
theorem C4_fetch_combine :
    (∀ c v : ℤ,
        (AtomicInt.fetch_add c v).1 = c ∧
          toU32 (AtomicInt.fetch_add c v).2 = (toU32 c + toU32 v) % 2 ^ 32) ∧
      (∀ c v : ℤ,
        (AtomicInt.fetch_sub c v).1 = c ∧
          toU32 (AtomicInt.fetch_sub c v).2 =
            (toU32 c + (2 ^ 32 - toU32 v)) % 2 ^ 32) ∧
      (∀ c v : ℤ,
        (AtomicInt.fetch_and c v).1 = c ∧
          toU32 (AtomicInt.fetch_and c v).2 = toU32 c &&& toU32 v) ∧
      (∀ c v : ℤ,
        (AtomicInt.fetch_or c v).1 = c ∧
          toU32 (AtomicInt.fetch_or c v).2 = toU32 c ||| toU32 v) ∧
      (∀ c v : ℤ,
        (AtomicInt.fetch_xor c v).1 = c ∧
          toU32 (AtomicInt.fetch_xor c v).2 = toU32 c ^^^ toU32 v) ∧
      AtomicInt.fetch_add 10 5 = (10, 15) ∧
      AtomicInt.fetch_xor 10 6 = (10, 12) := by
  refine ⟨fun c v => ⟨rfl, ?_⟩, fun c v => ⟨rfl, ?_⟩, fun c v => ⟨rfl, ?_⟩,
    fun c v => ⟨rfl, ?_⟩, fun c v => ⟨rfl, ?_⟩, by decide, by decide⟩
  · unfold AtomicInt.fetch_add i32wrap toU32
    omega
  · unfold AtomicInt.fetch_sub i32wrap toU32
    omega
  · exact toU32_ofU32 _ (Nat.and_lt_two_pow _ (toU32_lt v))
  · exact toU32_ofU32 _ (Nat.or_lt_two_pow (toU32_lt c) (toU32_lt v))
  · exact toU32_ofU32 _ (Nat.xor_lt_two_pow (toU32_lt c) (toU32_lt v))

/-! ## The managed-reference slot (`AtomicObject`)

Objects are identified by the natural numbers (standing for the distinct
non-null pointer values); the slot holds an `Option ℕ`, `none` standing for
the null pointer `__clear__` writes.  `rc o` records the net reference-count
change of object `o` effected so far: `Py::from_borrowed_ptr` and `clone`
increment, a `Bound`/`Py` drop and `Py_DecRef` decrement, while `into_ptr`,
`Py::from_owned_ptr` and `Py::from_owned_ptr_or_opt` transfer ownership of an
existing reference without touching the count.  pyo3 extracts a by-value
`Bound`/`Py` argument by cloning the caller's reference (one increment at call
entry), and a returned `Py` hands one owned reference to the caller. -/

/-- State of a managed-reference slot: the pointer it holds (`none` = null)
and the net reference-count change of every object. -/
structure AState where
  slot : Option ℕ
  rc : ℕ → ℤ

/-- Adds `d` to the recorded count of object `o`. -/
def bump (o : ℕ) (d : ℤ) (f : ℕ → ℤ) : ℕ → ℤ :=
  fun x => if x = o then f x + d else f x

/-- `Py_DecRef`: decrements the referent, tolerating null (no-op). -/
def decrefOpt (p : Option ℕ) (f : ℕ → ℤ) : ℕ → ℤ :=
  match p with
  | none => f
  | some o => bump o (-1) f

namespace AtomicObject

/-- `AtomicObject::new`: the extracted `Py` argument (one boundary increment)
is moved into the slot by `into_ptr`. -/
def new (v : ℕ) (rc : ℕ → ℤ) : AState :=
  { slot := some v, rc := bump v 1 rc }

/-- `AtomicObject::load`: atomic read then `Py::from_borrowed_ptr`, which
increments the referent and hands the caller an owned reference.
`from_borrowed_ptr` panics on null, modelled as `none` with no state
change. -/
def load (s : AState) : Option ℕ × AState :=
  match s.slot with
  | none => (none, s)
  | some o => (some o, { s with rc := bump o 1 s.rc })

/-- `AtomicObject::store`: boundary extraction increments `val`;
`ret = val.clone()` increments again; `into_ptr` moves the extraction
reference into the slot; `Py_DecRef` releases the old content; the clone is
returned owned to the caller. -/
def store (v : ℕ) (s : AState) : ℕ × AState :=
  (v, { slot := some v, rc := decrefOpt s.slot (bump v 2 s.rc) })

/-- `AtomicObject::exchange`: boundary extraction increments `val`;
`into_ptr` moves that reference into the slot; the old content is returned
through `Py::from_owned_ptr` (pure ownership handoff, no count change;
panics on null after the swap). -/
def exchange (v : ℕ) (s : AState) : Option ℕ × AState :=
  (s.slot, { slot := some v, rc := bump v 1 s.rc })

end AtomicObject

/-- The host-level equality check `orig.eq(&expected)`: arbitrary comparison
code of the host, which may raise an error and may reentrantly mutate the
slot state (it runs without any lock held). -/
structure EqOracle where
  run : ℕ → ℕ → AState → Except Unit Bool × AState

namespace AtomicObject

/-- The retry loop of `AtomicObject::compare_exchange`, after the optimistic
load.  `orig` is the object the `orig` binding currently holds and `dvar` the
one the `desired` binding currently holds; both start at the loaded snapshot
resp. the caller's desired object, and after a failed CAS the source rebinds
`orig` via `from_borrowed_ptr(cur_val)` (increment) and `desired` via
`from_owned_ptr(cur_val)` (claiming ownership of `cur_val`, while the pointer
taken out of `desired` by `into_ptr` is abandoned without a release).
Returns `none` on fuel exhaustion or where the source would panic (null slot
observed by a failed CAS). -/
def cmpxchgLoop (O : EqOracle) (expected : ℕ) :
    ℕ → ℕ → ℕ → AState → Option (Except Unit ℕ × AState)
  | 0, _, _, _ => none
  | fuel + 1, orig, dvar, s =>
    match O.run orig expected s with
    | (Except.error e, s1) =>
        -- `?` propagates: the live `orig`, `desired` and `expected` bindings
        -- drop, each releasing one reference
        some (Except.error e,
          { s1 with
            rc := bump expected (-1) (bump dvar (-1) (bump orig (-1) s1.rc)) })
    | (Except.ok false, s1) =>
        -- loop exit: `orig.unbind()` is returned owned to the caller; the
        -- `desired` and `expected` bindings drop
        some (Except.ok orig,
          { s1 with rc := bump expected (-1) (bump dvar (-1) s1.rc) })
    | (Except.ok true, s1) =>
        -- `desired.into_ptr()` moves the `desired` binding out, then the CAS
        if s1.slot = some orig then
          -- success: the slot now owns the moved `desired` reference; the
          -- slot's former reference is returned owned via `from_owned_ptr`;
          -- the `orig` and `expected` bindings drop
          some (Except.ok orig,
            { slot := some dvar,
              rc := bump expected (-1) (bump orig (-1) s1.rc) })
        else
          match s1.slot with
          | none => none
          | some cur =>
              -- failure: rebind `orig` to `cur` (old `orig` drops, `cur` is
              -- incremented by `from_borrowed_ptr`) and rebind `desired` to
              -- `cur` claiming ownership; the moved-out desired reference is
              -- abandoned with no release
              cmpxchgLoop O expected fuel cur cur
                { s1 with rc := bump cur 1 (bump orig (-1) s1.rc) }

/-- `AtomicObject::compare_exchange`: boundary extraction increments
`expected` and `desired`; the optimistic `self.load` increments the loaded
snapshot; then the retry loop runs.  `none` where the source would panic
(null slot at the load) or on fuel exhaustion. -/
def compare_exchange (O : EqOracle) (fuel : ℕ) (expected desired : ℕ)
    (s : AState) : Option (Except Unit ℕ × AState) :=
  match s.slot with
  | none => none
  | some a =>
      cmpxchgLoop O expected fuel a desired
        { s with rc := bump a 1 (bump desired 1 (bump expected 1 s.rc)) }

/-- `Py::from_owned_ptr_or_opt`: claims ownership of the reference behind the
pointer (`none` for null); no count change. -/
def fromOwnedPtrOrOpt (p : Option ℕ) (rc : ℕ → ℤ) :
    Option ℕ × (ℕ → ℤ) :=
  (p, rc)

/-- A handle wrapped in `ManuallyDrop` is never released: no decrement. -/
def manuallyDrop (rc : ℕ → ℤ) : ℕ → ℤ := rc

/-- `AtomicObject::__traverse__`: atomic load taken through
`from_owned_ptr_or_opt` inside `ManuallyDrop`, so neither an increment nor a
drop decrement happens; the handle is visited as a borrow only. -/
def __traverse__ (s : AState) : Option ℕ × AState :=
  let p := fromOwnedPtrOrOpt s.slot s.rc
  (p.1, { slot := s.slot, rc := manuallyDrop p.2 })

/-- `AtomicObject::__clear__`: atomically swap the slot to null and
`Py_DecRef` the old content (a no-op when it was already null). -/
def __clear__ (s : AState) : AState :=
  { slot := none, rc := decrefOpt s.slot s.rc }

/-- `Drop for AtomicObject`: the destructor body is exactly
`self.__clear__()`. -/
def destructor (s : AState) : AState := __clear__ s

end AtomicObject

theorem bump_apply (o : ℕ) (d : ℤ) (f : ℕ → ℤ) (x : ℕ) :
    bump o d f x = if x = o then f x + d else f x := rfl

theorem decrefOpt_apply (p : Option ℕ) (f : ℕ → ℤ) (x : ℕ) :
    decrefOpt p f x = f x - (if p = some x then 1 else 0) := by
  cases p with
  | none => simp [decrefOpt]
  | some a =>
      by_cases hx : a = x
      · subst hx
        simp [decrefOpt, bump]
        omega
      · have hx2 : ¬ x = a := fun h => hx h.symm
        simp [decrefOpt, bump, hx, hx2]

/-- Claim C5: the collector's clear hook is idempotent — clearing twice
leaves the slot empty, the second invocation changes no reference count
(it releases a null handle), and the two together release exactly the one
reference the slot held before the first. -/
theorem C5_clear_idempotent :
    ∀ s : AState,
      (AtomicObject.__clear__ (AtomicObject.__clear__ s)).slot = none ∧
      (AtomicObject.__clear__ (AtomicObject.__clear__ s)).rc =
        (AtomicObject.__clear__ s).rc ∧
      (∀ o, (AtomicObject.__clear__ (AtomicObject.__clear__ s)).rc o =
        s.rc o - (if s.slot = some o then 1 else 0)) := by
  intro s
  refine ⟨rfl, rfl, fun o => ?_⟩
  show decrefOpt s.slot s.rc o = s.rc o - (if s.slot = some o then 1 else 0)
  exact decrefOpt_apply s.slot s.rc o

/-- Claim C6: destruction is observably the clear hook — the destructor is
exactly `__clear__`, so it performs one decrement of the currently held
reference (none when the slot is already empty) and leaves the slot empty. -/
theorem C6_drop_refines_clear :
    ∀ s : AState,
      AtomicObject.destructor s = AtomicObject.__clear__ s ∧
      (AtomicObject.destructor s).slot = none ∧
      (∀ o, (AtomicObject.destructor s).rc o =
        s.rc o - (if s.slot = some o then 1 else 0)) := by
  intro s
  refine ⟨rfl, rfl, fun o => ?_⟩
  show decrefOpt s.slot s.rc o = s.rc o - (if s.slot = some o then 1 else 0)
  exact decrefOpt_apply s.slot s.rc o

/-- Claim C7: the traversal hook reports the current referent without
creating a new owned reference — it returns the slot's content, and neither
the reference counts nor the slot change. -/
theorem C7_traverse_frame :
    ∀ s : AState,
      (AtomicObject.__traverse__ s).1 = s.slot ∧
      (AtomicObject.__traverse__ s).2 = s := by
  intro s
  exact ⟨rfl, rfl⟩

/-- Claim C10: on an empty (cleared) slot both collector hooks are total and
side-effect-free — the traversal hook visits no object and changes nothing,
and the clear hook swaps null for null and decrements nothing. -/
theorem C10_null_hooks :
    ∀ s : AState, s.slot = none →
      AtomicObject.__traverse__ s = (none, s) ∧
      (AtomicObject.__clear__ s).slot = none ∧
      (AtomicObject.__clear__ s).rc = s.rc := by
  intro s h
  refine ⟨?_, rfl, ?_⟩
  · obtain ⟨sl, rc⟩ := s
    dsimp at h
    subst h
    rfl
  · unfold AtomicObject.__clear__ decrefOpt
    rw [h]

/-- A concrete empty slot state for exercising the hook theorems. -/
def emptySlotState : AState := { slot := none, rc := fun _ => 0 }

theorem C10_null_hooks_witness :
    AtomicObject.__traverse__ emptySlotState = (none, emptySlotState) ∧
      (AtomicObject.__clear__ emptySlotState).slot = none ∧
      (AtomicObject.__clear__ emptySlotState).rc = emptySlotState.rc :=
  C10_null_hooks emptySlotState rfl

/-! ## Claim C2: the retry path of `compare_exchange`

The source's `Err(cur_val)` arm rebinds `desired` with
`Bound::from_owned_ptr(py, cur_val)` — the *current* value's pointer — while
its own safety comment justifies re-claiming the still-owned pointer taken
out of `desired`.  The reference moved out of `desired` by `into_ptr` is
therefore abandoned (a leak) and one reference to the current value that the
function does not own is claimed (released later when the binding drops).
The run below exhibits this: the slot holds object 1, the call is
`compare_exchange(expected = 1, desired = 3)`, and during the first equality
check (which succeeds) reentrant host code stores object 2 into the slot, so
the CAS fails and the single retry equality check (2 versus 1) fails. -/

/-- Host equality that behaves as identity but, on the first check (slot
still holding object 1), also reentrantly performs `store 2` on the same
slot, the reentrant caller dropping the returned clone. -/
def interferingOracle : EqOracle where
  run a b s :=
    if s.slot = some 1 then
      (Except.ok true,
        (fun p => { p.2 with rc := bump p.1 (-1) p.2.rc })
          (AtomicObject.store 2 s))
    else
      (Except.ok (decide (a = b)), s)

/-- The initial state of the counterexample run: the slot owns object 1;
counts record net changes, so they start at zero. -/
def leakRunStart : AState := { slot := some 1, rc := fun _ => 0 }

/-- Claim C2 (refuted by the code, evaluated at the failing input): the run
described above returns object 2, and the net count of the desired object 3
ends at `+1` — the desired reference was not returned to the caller but
leaked — where the claim requires a net change of `0`; object 2 ends at `+1`
although its two owners after the call (the slot and the returned handle)
require `+2`: one reference the call never owned was released. -/
theorem C2_desired_leak_eval :
    (AtomicObject.compare_exchange interferingOracle 2 1 3 leakRunStart).map
        (fun p => (p.1.toOption, p.2.slot, p.2.rc 1, p.2.rc 2, p.2.rc 3)) =
      some (some 2, some 2, -1, 1, 1) ∧
      ¬ (AtomicObject.compare_exchange interferingOracle 2 1 3
            leakRunStart).map (fun p => p.2.rc 3) = some 0 := by
  constructor <;> decide

/-- Claim C8: if the host-equality check inside `compare_exchange` raises,
the error is the operation's immediate result — the retry loop is aborted
with only the live `orig`, `desired` and `expected` bindings dropped — and
the slot's content is unchanged from before the call (this invocation
performed no swap; `hpres` states that the erroring check itself did not
reentrantly move the slot). -/
theorem C8_error_propagation (O : EqOracle) (fuel : ℕ)
    (expected desired a : ℕ) (s s1 : AState)
    (hslot : s.slot = some a)
    (hrun : O.run a expected
        { s with rc := bump a 1 (bump desired 1 (bump expected 1 s.rc)) } =
      (Except.error (), s1))
    (hpres : s1.slot = s.slot)
    (hfuel : 0 < fuel) :
    AtomicObject.compare_exchange O fuel expected desired s =
        some (Except.error (),
          { s1 with
            rc := bump expected (-1) (bump desired (-1) (bump a (-1) s1.rc)) }) ∧
      ({ s1 with
          rc := bump expected (-1)
            (bump desired (-1) (bump a (-1) s1.rc)) } : AState).slot =
        s.slot := by
  obtain ⟨n, rfl⟩ : ∃ n, fuel = n + 1 :=
    ⟨fuel - 1, (Nat.succ_pred_eq_of_pos hfuel).symm⟩
  refine ⟨?_, hpres⟩
  rw [hslot] at hrun
  unfold AtomicObject.compare_exchange
  rw [hslot]
  unfold AtomicObject.cmpxchgLoop
  rw [hrun]

/-- Host equality that always raises. -/
def raisingOracle : EqOracle where
  run _ _ s := (Except.error (), s)

/-- The initial state of the erroring run: the slot owns object 1. -/
def errorRunStart : AState := { slot := some 1, rc := fun _ => 0 }

/-- The state after the call-entry increments of the erroring run. -/
def errorRunEntry : AState :=
  { errorRunStart with
    rc := bump 1 1 (bump 3 1 (bump 1 1 errorRunStart.rc)) }

/-! ## Claim C3: reference-count conservation over operation sequences

A finite sequence of caller-level operations runs each operation to
completion.  Host equality inside `compare_exchange` is arbitrary comparison
code of the host: each `cmpxchg` in a sequence carries the `EqOracle` that
models the callback it runs (which may raise and may reentrantly mutate the
slot) together with a fuel bound for the retry loop.  `Env` ledgers the
references the caller side owns: passing an argument keeps the caller's own
handle (pyo3 extracts by cloning), and every value an operation returns
owned adds one.  Conservation says each object's net count change always
equals the caller's gained references plus one exactly while the slot holds
the object. -/

/-- One caller-level operation on the managed-reference slot. -/
inductive SlotOp where
  | load : SlotOp
  | store (v : ℕ) : SlotOp
  | exchange (v : ℕ) : SlotOp
  | cmpxchg (expected desired : ℕ) (O : EqOracle) (fuel : ℕ) : SlotOp
  | traverse : SlotOp
  | clear : SlotOp
  | destroy : SlotOp

/-- The caller side's ownership ledger. -/
abbrev Env := ℕ → ℤ

/-- Runs one operation: the state evolves per the source, and the ledger
gains one reference for each value returned owned to the caller (operations
the source would abort by panic, or a retry loop out of fuel, leave the pair
unchanged resp. gain nothing). -/
def runOp (op : SlotOp) (p : AState × Env) : AState × Env :=
  match op with
  | SlotOp.load =>
      match p.1.slot with
      | none => p
      | some o => ({ p.1 with rc := bump o 1 p.1.rc }, bump o 1 p.2)
  | SlotOp.store v =>
      ((AtomicObject.store v p.1).2, bump (AtomicObject.store v p.1).1 1 p.2)
  | SlotOp.exchange v =>
      ((AtomicObject.exchange v p.1).2,
        match p.1.slot with
        | none => p.2
        | some o => bump o 1 p.2)
  | SlotOp.cmpxchg e d O fuel =>
      match AtomicObject.compare_exchange O fuel e d p.1 with
      | none => p
      | some (Except.ok ret, s2) => (s2, bump ret 1 p.2)
      | some (Except.error _, s2) => (s2, p.2)
  | SlotOp.traverse => ((AtomicObject.__traverse__ p.1).2, p.2)
  | SlotOp.clear => (AtomicObject.__clear__ p.1, p.2)
  | SlotOp.destroy => (AtomicObject.destructor p.1, p.2)

/-- Conservation: each object's net count change equals the caller's gained
references plus one exactly while the slot holds it — no leak, no release of
a reference the slot does not own. -/
def Conserved (p : AState × Env) : Prop :=
  ∀ o, p.1.rc o = p.2 o + (if p.1.slot = some o then 1 else 0)

/-- A concrete starting pair: the slot constructed holding object 1, whose
one caller-side reference the construction consumed. -/
def violStart : AState × Env :=
  (AtomicObject.new 1 (fun o => if o = 1 then 1 else 0),
    fun o => if o = 1 then 1 else 0)

/-- A one-operation sequence: the compare-exchange of the C2 run — expected
1, desired 3, host equality reentrantly storing 2 during the first check. -/
def violOps : List SlotOp :=
  [SlotOp.cmpxchg 1 3 interferingOracle 2]

/-- Claim C3 (refuted by the code, evaluated at a failing sequence):
conservation holds at the start, but running the single compare-exchange
whose host-equality callback reentrantly stores object 2 — driving the
source through its failed-CAS retry arm — breaks it: the desired object 3
ends at net `+1` though neither the caller's ledger (`0`) nor the slot
(holding 2) accounts for it, a leaked reference; and object 2 ends at net
`+1` where its owners — the slot and the returned handle in the ledger —
require `+2`, a release of a reference the slot never owned. -/
theorem C3_conservation_violation :
    Conserved violStart ∧
      ¬ Conserved (violOps.foldl (fun q op => runOp op q) violStart) ∧
      (violOps.foldl (fun q op => runOp op q) violStart).1.slot = some 2 ∧
      (violOps.foldl (fun q op => runOp op q) violStart).1.rc 3 = 1 ∧
      (violOps.foldl (fun q op => runOp op q) violStart).2 3 = 0 ∧
      (violOps.foldl (fun q op => runOp op q) violStart).1.rc 2 = 1 ∧
      (violOps.foldl (fun q op => runOp op q) violStart).2 2 = 1 := by
  refine ⟨?_, ?_, by decide, by decide, by decide, by decide, by decide⟩
  · intro o
    simp [violStart, Conserved, AtomicObject.new, bump]
    split_ifs <;> omega
  · intro h
    exact absurd (h 3) (by decide)

/-! ## Claim C9: compare-exchange atomicity under contention

`N` threads each run `compare_exchange(old, newv i)` against a slot initially
holding `old`, the values `old, newv i` being distinct objects that host
equality compares as identity.  Each shared-memory access of the retry loop
is one atomic step — the initial load, and the CAS (whose failure also
delivers the fresh current value, which the source rebinds as the new
snapshot); the purely thread-local equality check is folded into the step
that follows it.  A schedule is an arbitrary interleaving of thread steps,
sound for the single total order the source's `SeqCst` orderings provide. -/

/-- The phase of one thread's `compare_exchange(old, newv i)` call. -/
inductive Phase where
  | start : Phase
  | loaded (snapshot : ℕ) : Phase
  | done (ret : ℕ) : Phase
deriving DecidableEq

/-- The shared slot plus each thread's phase. -/
structure CState (n : ℕ) where
  slot : ℕ
  threads : Fin n → Phase

/-- One atomic step of thread `i`: the initial load; or — when the equality
check on the snapshot passes — the CAS, which on success installs `newv i`
and finishes returning the snapshot and on failure rebinds the snapshot to
the fresh current value; or the loop exit returning the snapshot when the
check fails.  A finished thread steps no further. -/
def threadStep {n : ℕ} (old : ℕ) (newv : Fin n → ℕ) (st : CState n)
    (i : Fin n) : CState n :=
  match st.threads i with
  | Phase.start =>
      { st with threads := Function.update st.threads i (Phase.loaded st.slot) }
  | Phase.loaded snap =>
      if snap = old then
        if st.slot = snap then
          { slot := newv i,
            threads := Function.update st.threads i (Phase.done snap) }
        else
          { st with
            threads := Function.update st.threads i (Phase.loaded st.slot) }
      else
        { st with threads := Function.update st.threads i (Phase.done snap) }
  | Phase.done _ => st

/-- Runs a schedule (a list of thread indices) from a state. -/
def runSched {n : ℕ} (old : ℕ) (newv : Fin n → ℕ) (st : CState n)
    (sched : List (Fin n)) : CState n :=
  sched.foldl (threadStep old newv) st

/-- All threads poised to call, the slot holding `old`. -/
def initCState (old : ℕ) (n : ℕ) : CState n :=
  { slot := old, threads := fun _ => Phase.start }

/-- Whether a thread's call has returned. -/
def isDone : Phase → Bool
  | Phase.done _ => true
  | _ => false

/-- The interleaving invariant: either no CAS has succeeded yet — the slot
still holds `old` and every thread is before its load or holds the snapshot
`old` — or exactly one winner `w` has installed `newv w` and returned `old`,
and every other thread is before its load, holds a snapshot (`old`, stale,
or the fresh `newv w`), or has returned `newv w`. -/
def CInv {n : ℕ} (old : ℕ) (newv : Fin n → ℕ) (st : CState n) : Prop :=
  (st.slot = old ∧
      ∀ i, st.threads i = Phase.start ∨ st.threads i = Phase.loaded old) ∨
    (∃ w, st.slot = newv w ∧ st.threads w = Phase.done old ∧
      ∀ i, i ≠ w →
        st.threads i = Phase.start ∨ st.threads i = Phase.loaded old ∨
          st.threads i = Phase.loaded (newv w) ∨
          st.threads i = Phase.done (newv w))

theorem threadStep_inv {n : ℕ} (old : ℕ) (newv : Fin n → ℕ)
    (hne : ∀ i, newv i ≠ old) (st : CState n) (i : Fin n)
    (h : CInv old newv st) : CInv old newv (threadStep old newv st i) := by
  rcases h with ⟨hs, hth⟩ | ⟨w, hs, hw, hth⟩
  · rcases hth i with hi | hi
    · left
      refine ⟨by simp [threadStep, hi, hs], fun j => ?_⟩
      by_cases hj : j = i
      · subst hj
        right
        simp [threadStep, hi, hs]
      · have hj2 : j ≠ i := hj
        rcases hth j with h1 | h1 <;>
          simp [threadStep, hi, Function.update_noteq hj2, h1]
    · right
      refine ⟨i, by simp [threadStep, hi, hs], by simp [threadStep, hi, hs],
        fun j hj => ?_⟩
      rcases hth j with h1 | h1 <;>
        simp [threadStep, hi, hs, Function.update_noteq hj, h1]
  · by_cases hiw : i = w
    · subst hiw
      have hstep : threadStep old newv st i = st := by simp [threadStep, hw]
      rw [hstep]
      exact Or.inr ⟨i, hs, hw, hth⟩
    · have hwi : w ≠ i := fun hh => hiw hh.symm
      rcases hth i hiw with hi | hi | hi | hi
      · right
        refine ⟨w, by simp [threadStep, hi, hs],
          by simp [threadStep, hi, Function.update_noteq hwi, hw],
          fun j hj => ?_⟩
        by_cases hj2 : j = i
        · subst hj2
          right; right; left
          simp [threadStep, hi, hs]
        · rcases hth j hj with h1 | h1 | h1 | h1 <;>
            simp [threadStep, hi, Function.update_noteq hj2, h1]
      · right
        refine ⟨w, by simp [threadStep, hi, hs, hne w],
          by simp [threadStep, hi, hs, hne w, Function.update_noteq hwi, hw],
          fun j hj => ?_⟩
        by_cases hj2 : j = i
        · subst hj2
          right; right; left
          simp [threadStep, hi, hs, hne w]
        · rcases hth j hj with h1 | h1 | h1 | h1 <;>
            simp [threadStep, hi, hs, hne w, Function.update_noteq hj2, h1]
      · right
        refine ⟨w, by simp [threadStep, hi, hne w, hs],
          by simp [threadStep, hi, hne w, Function.update_noteq hwi, hw],
          fun j hj => ?_⟩
        by_cases hj2 : j = i
        · subst hj2
          right; right; right
          simp [threadStep, hi, hne w]
        · rcases hth j hj with h1 | h1 | h1 | h1 <;>
            simp [threadStep, hi, hne w, Function.update_noteq hj2, h1]
      · have hstep : threadStep old newv st i = st := by simp [threadStep, hi]
        rw [hstep]
        exact Or.inr ⟨w, hs, hw, hth⟩

theorem runSched_inv {n : ℕ} (old : ℕ) (newv : Fin n → ℕ)
    (hne : ∀ i, newv i ≠ old) (sched : List (Fin n)) (st : CState n)
    (h : CInv old newv st) : CInv old newv (runSched old newv st sched) := by
  induction sched generalizing st with
  | nil => exact h
  | cons j rest ih => exact ih (threadStep old newv st j) (threadStep_inv old newv hne st j h)

/-- Claim C9: compare-exchange atomicity under contention — for any number
of threads concurrently attempting `compare_exchange(old, newv i)` against a
slot initially holding `old` (the values distinct, host equality being
identity on them), under every interleaving in which all calls return,
exactly one thread's call succeeds (returning `old`), every other call
returns the winner's installed value, and the slot ends holding that
value. -/
theorem C9_cas_atomicity {n : ℕ} (old : ℕ) (newv : Fin n → ℕ)
    (hn : 0 < n) (hne : ∀ i, newv i ≠ old) (sched : List (Fin n))
    (hdone : ∀ i,
      isDone ((runSched old newv (initCState old n) sched).threads i) = true) :
    ∃ w, (runSched old newv (initCState old n) sched).threads w =
        Phase.done old ∧
      (runSched old newv (initCState old n) sched).slot = newv w ∧
      (∀ i, i ≠ w →
        (runSched old newv (initCState old n) sched).threads i =
          Phase.done (newv w)) ∧
      (∀ i, (runSched old newv (initCState old n) sched).threads i =
          Phase.done old → i = w) := by
  have hinit : CInv old newv (initCState old n) :=
    Or.inl ⟨rfl, fun i => Or.inl rfl⟩
  have hinv := runSched_inv old newv hne sched (initCState old n) hinit
  rcases hinv with ⟨hs, hth⟩ | ⟨w, hs, hw, hth⟩
  · exfalso
    have hi0 := hdone ⟨0, hn⟩
    rcases hth ⟨0, hn⟩ with h1 | h1 <;> rw [h1] at hi0 <;> simp [isDone] at hi0
  · refine ⟨w, hw, hs, fun i hi => ?_, fun i hdi => ?_⟩
    · have hi0 := hdone i
      rcases hth i hi with h1 | h1 | h1 | h1 <;>
        first
          | exact h1
          | (rw [h1] at hi0; simp [isDone] at hi0)
    · by_contra hiw
      rcases hth i hiw with h1 | h1 | h1 | h1 <;> rw [h1] at hdi
      · exact Phase.noConfusion hdi
      · exact Phase.noConfusion hdi
      · exact Phase.noConfusion hdi
      · have hwo : newv w = old := by injection hdi
        exact hne w hwo

/-- Two contending threads, installing objects 1 and 2 respectively. -/
def newvW : Fin 2 → ℕ := fun i => (i : ℕ) + 1

/-- A schedule in which thread 0 wins and thread 1 fails its CAS, re-checks
the fresh value and returns it. -/
def schedW : List (Fin 2) := [0, 1, 0, 1, 1]

theorem C9_cas_atomicity_witness :
    ((0 : ℕ) < 2 ∧ (∀ i : Fin 2, newvW i ≠ 0) ∧
        ∀ i,
          isDone ((runSched 0 newvW (initCState 0 2) schedW).threads i) =
            true) ∧
      ∃ w, (runSched 0 newvW (initCState 0 2) schedW).threads w =
          Phase.done 0 ∧
        (runSched 0 newvW (initCState 0 2) schedW).slot = newvW w ∧
        (∀ i, i ≠ w →
          (runSched 0 newvW (initCState 0 2) schedW).threads i =
            Phase.done (newvW w)) ∧
        (∀ i, (runSched 0 newvW (initCState 0 2) schedW).threads i =
            Phase.done 0 → i = w) :=
  ⟨⟨by decide, by decide, by decide⟩,
    C9_cas_atomicity 0 newvW (by decide) (by decide) schedW (by decide)⟩

theorem C8_error_propagation_witness :
    AtomicObject.compare_exchange raisingOracle 1 1 3 errorRunStart =
        some (Except.error (),
          { errorRunEntry with
            rc := bump 1 (-1)
              (bump 3 (-1) (bump 1 (-1) errorRunEntry.rc)) }) ∧
      ({ errorRunEntry with
          rc := bump 1 (-1)
            (bump 3 (-1) (bump 1 (-1) errorRunEntry.rc)) } : AState).slot =
        errorRunStart.slot :=
  C8_error_propagation raisingOracle 1 1 3 1 errorRunStart errorRunEntry rfl
    rfl rfl (by decide)
